import Mathlib

/- Shallow embedding of the core of the debugger repository: breakpoint.rs,
   registers.rs, tracee.rs, debugger.rs, dwarf.rs and util.rs.  Machine
   integers are modelled as Nat (u64 overflow is made explicit with % 2 ^ 64
   where it matters), tracee memory as a byte map, fallible Rust functions
   return Except or Option, and a Rust panic (unwrap of None, unreachable
   code, out-of-bounds slicing) is a dedicated result constructor. -/

namespace Dbg

/-- Outcome of a Rust computation that can panic: either the value it
returns, or a panic.  A panic is not a returned error value. -/
inductive PResult (α : Type) where
  | ok (val : α)
  | panic
deriving DecidableEq

/-- Rust characters of the embedded strings (str and String are modelled as
lists of Char; byte-level strings as lists of Nat). -/
abbrev RStr := List Char

-- registers.rs --------------------------------------------------------------

/-- The register enumeration of registers.rs. -/
inductive Register where
  | rax | rbx | rcx | rdx | rdi | rsi | rbp | rsp
  | r8 | r9 | r10 | r11 | r12 | r13 | r14 | r15
  | rip | rflags | cs | orig_rax | fs_base | gs_base
  | fs | gs | ss | ds | es
deriving DecidableEq

/-- The tracee register bank (the ptrace GETREGS view); each value is a u64. -/
def Regs : Type := Register → Nat

/-- registers.rs get_reg_value: fetch the bank, read the named field. -/
def get_reg_value (regs : Regs) (r : Register) : Nat := regs r

/-- registers.rs set_reg_value: fetch the bank, overwrite the named field,
store the bank back. -/
def set_reg_value (regs : Regs) (r : Register) (v : Nat) : Regs :=
  fun x => if x = r then v else regs x

-- tracee.rs: stop events and wait_for_signal --------------------------------

/-- One stop event as Tracee::wait_for_signal observes it: whether waitpid
reported WaitStatus::Exited, and the two siginfo fields the code reads. -/
structure StopEvent where
  exited : Bool
  si_signo : Int
  si_code : Int

/-- Result of wait_for_signal: the register bank afterwards, the sequence of
register writes the call performed (via set_reg_value), and the returned
boolean (true means the tracee has exited). -/
structure WaitRes where
  regs : Regs
  writes : List (Register × Nat)
  exited : Bool

/-- Tracee::handle_sigtrap.  For si_code SI_KERNEL (0x80) or TRAP_BRKPT (1)
the saved rip is rewound by one and written back; TRAP_TRACE (2) and every
other code only print.  The u64 subtraction `pc - 1` is modelled with the
wrapping semantics of the release profile. -/
def handle_sigtrap (regs : Regs) (code : Int) : Regs × List (Register × Nat) :=
  if code = 0x80 ∨ code = 1 then
    let pc := (get_reg_value regs Register.rip + (2 ^ 64 - 1)) % 2 ^ 64
    (set_reg_value regs Register.rip pc, [(Register.rip, pc)])
  else (regs, [])

/-- Tracee::wait_for_signal.  If the wait status is Exited it returns true at
once.  Otherwise it reads siginfo; nix converts si_signo (an i32) to a
Signal, which fails outside 1..=31 and the failure propagates as an error.
SIGTRAP = 5 dispatches to handle_sigtrap; SIGSEGV = 11 and all other signals
only print; the call then returns false. -/
def wait_for_signal (regs : Regs) (ev : StopEvent) : Except Unit WaitRes :=
  if ev.exited = true then Except.ok ⟨regs, [], true⟩
  else if 1 ≤ ev.si_signo ∧ ev.si_signo ≤ 31 then
    if ev.si_signo = 5 then
      let r := handle_sigtrap regs ev.si_code
      Except.ok ⟨r.1, r.2, false⟩
    else Except.ok ⟨regs, [], false⟩
  else Except.error ()

-- tracee memory: ptrace word-sized peek and poke ----------------------------

/-- Byte-addressed tracee memory. -/
def Mem : Type := Nat → Nat

/-- Wellformedness of a byte map: every cell holds one byte. -/
def Mem.Wf (m : Mem) : Prop := ∀ a, m a < 256

/-- ptrace::read: an 8-byte little-endian word at an arbitrary byte address
(x86-64 is little endian, so the low byte of the word is the byte at the
address itself). -/
def readWord (m : Mem) (a : Nat) : Nat :=
  m a + 256 * (m (a + 1) + 256 * (m (a + 2) + 256 * (m (a + 3) +
    256 * (m (a + 4) + 256 * (m (a + 5) + 256 * (m (a + 6) +
    256 * m (a + 7)))))))

/-- ptrace::write: store an 8-byte word, little endian, at a byte address. -/
def writeWord (m : Mem) (a : Nat) (w : Nat) : Mem :=
  fun x =>
    if x = a then w % 256
    else if x = a + 1 then w / 256 % 256
    else if x = a + 2 then w / 256 / 256 % 256
    else if x = a + 3 then w / 256 / 256 / 256 % 256
    else if x = a + 4 then w / 256 / 256 / 256 / 256 % 256
    else if x = a + 5 then w / 256 / 256 / 256 / 256 / 256 % 256
    else if x = a + 6 then w / 256 / 256 / 256 / 256 / 256 / 256 % 256
    else if x = a + 7 then w / 256 / 256 / 256 / 256 / 256 / 256 / 256 % 256
    else m x

-- breakpoint.rs --------------------------------------------------------------

/-- The Breakpoint record of breakpoint.rs (the constant t_pid field is
dropped).  inst_data models the Option of the saved low byte (a u8). -/
structure Breakpoint where
  inst_addr : Nat
  inst_data : Option Nat
  enabled : Bool
deriving DecidableEq

/-- Breakpoint::new: constructed disabled, with no saved byte. -/
def Breakpoint.new (addr : Nat) : Breakpoint := ⟨addr, none, false⟩

/-- Breakpoint::enable: read the word at inst_addr, save its low byte, write
the word back with the low byte replaced by INT3 = 0xCC.
`(data AND NOT 0xff) OR 0xCC` on the u64 bit pattern is `data / 256 * 256 +
0xCC`. -/
def Breakpoint.enable (m : Mem) (bp : Breakpoint) : Mem × Breakpoint :=
  let data := readWord m bp.inst_addr
  let data_with_int3 := data / 256 * 256 + 0xCC
  (writeWord m bp.inst_addr data_with_int3,
   { bp with inst_data := some (data % 256), enabled := true })

/-- Breakpoint::disable: read the word at inst_addr and write it back with
the low byte replaced by the saved byte.  `self.inst_data.unwrap()` panics
(modelled as none) when no byte was saved; the code then also clears
inst_data and the enabled flag. -/
def Breakpoint.disable (m : Mem) (bp : Breakpoint) : Option (Mem × Breakpoint) :=
  match bp.inst_data with
  | none => none
  | some b =>
    let data := readWord m bp.inst_addr
    let orig_data := data / 256 * 256 + b
    some (writeWord m bp.inst_addr orig_data,
          { bp with inst_data := none, enabled := false })

-- debugger.rs ----------------------------------------------------------------

/-- Modelled from the spec: the post-action tag for transient breakpoints.
debugger.rs imports BreakpointLaterAction from breakpoint.rs, but the
definition is absent from the sources; the four variants are those of the
spec's post-action sum type and of the match in Debugger::reverse_breakpoint. -/
inductive BreakpointLaterAction where
  | nothing
  | delete
  | disable
  | enable
deriving DecidableEq

/-- HashMap insert (with some v) and remove (with none) on the breakpoint
registry, modelled as a map from runtime address to Option Breakpoint. -/
def reg_insert (r : Nat → Option Breakpoint) (a : Nat) (v : Option Breakpoint) :
    Nat → Option Breakpoint :=
  fun k => if k = a then v else r k

/-- The Debugger state: tracee memory, tracee registers, and the breakpoint
registry (HashMap from runtime address to Breakpoint, modelled as a map). -/
structure DbgState where
  mem : Mem
  regs : Regs
  breakpoints : Nat → Option Breakpoint

/-- Debugger::set_breakpoint_at: construct a new Breakpoint at addr, enable
it, and insert it into the registry at key addr (plain HashMap insert: any
prior record at the key is overwritten without being disabled). -/
def set_breakpoint_at (s : DbgState) (addr : Nat) : DbgState :=
  let bp := Breakpoint.new addr
  let e := Breakpoint.enable s.mem bp
  { s with mem := e.1,
           breakpoints := reg_insert s.breakpoints addr (some e.2) }

/-- Debugger::set_temp_breakpoint_at: no entry at addr means construct,
enable and insert (Delete); a disabled entry is enabled in place (Disable);
an enabled entry is left alone (Nothing). -/
def set_temp_breakpoint_at (s : DbgState) (addr : Nat) :
    DbgState × BreakpointLaterAction :=
  match s.breakpoints addr with
  | some bp =>
    if bp.enabled then (s, BreakpointLaterAction.nothing)
    else
      let e := Breakpoint.enable s.mem bp
      ({ s with mem := e.1,
                breakpoints := reg_insert s.breakpoints addr (some e.2) },
       BreakpointLaterAction.disable)
  | none => (set_breakpoint_at s addr, BreakpointLaterAction.delete)

/-- Debugger::reverse_breakpoint: undo a transient set according to the
post-action.  The unwraps on registry lookups and on the saved byte panic
when they fail. -/
def reverse_breakpoint (s : DbgState) (key : Nat)
    (action : BreakpointLaterAction) : PResult DbgState :=
  match action with
  | BreakpointLaterAction.nothing => PResult.ok s
  | BreakpointLaterAction.delete =>
    match s.breakpoints key with
    | none => PResult.panic
    | some bp =>
      match Breakpoint.disable s.mem bp with
      | none => PResult.panic
      | some d =>
        PResult.ok { s with mem := d.1,
                            breakpoints := reg_insert s.breakpoints key none }
  | BreakpointLaterAction.disable =>
    match s.breakpoints key with
    | none => PResult.panic
    | some bp =>
      match Breakpoint.disable s.mem bp with
      | none => PResult.panic
      | some d =>
        PResult.ok { s with mem := d.1,
                            breakpoints := reg_insert s.breakpoints key (some d.2) }
  | BreakpointLaterAction.enable =>
    match s.breakpoints key with
    | none => PResult.panic
    | some bp =>
      let e := Breakpoint.enable s.mem bp
      PResult.ok { s with mem := e.1,
                          breakpoints := reg_insert s.breakpoints key (some e.2) }

/-- Debugger::step_over_breakpoint.  The oracle stands for
Tracee::single_step_instr: the tracee executes one instruction and the
following wait_for_signal consumes the TRAP_TRACE stop (which, by
wait_for_signal's specification, touches no register).  If the registry
holds an enabled breakpoint at rip it is disabled, one instruction is
executed, and it is re-enabled in place; otherwise nothing happens. -/
def step_over_breakpoint (oracle : Mem → Regs → Mem × Regs) (s : DbgState) :
    PResult (DbgState × Bool) :=
  let pc := get_reg_value s.regs Register.rip
  match s.breakpoints pc with
  | some bp =>
    if bp.enabled then
      match Breakpoint.disable s.mem bp with
      | none => PResult.panic
      | some d =>
        let st := oracle d.1 s.regs
        let e := Breakpoint.enable st.1 d.2
        PResult.ok ({ mem := e.1, regs := st.2,
                      breakpoints := reg_insert s.breakpoints pc (some e.2) },
                    true)
    else PResult.ok (s, false)
  | none => PResult.ok (s, false)

/-- Debugger::step_out.  cont stands for Debugger::continue_execution; its
Except component is the Result: an error from it propagates with `?`,
skipping the reversal.  The returned Option Unit is the command's own
Result (none = returned Ok); a panic inside reverse_breakpoint is also
reported as an abnormal exit. -/
def step_out (cont : DbgState → DbgState × Except Unit Bool) (s : DbgState) :
    DbgState × Option Unit :=
  let fp := get_reg_value s.regs Register.rbp
  let ret_addr := readWord s.mem (fp + 8)
  let p := set_temp_breakpoint_at s ret_addr
  match cont p.1 with
  | (s2, Except.error e) => (s2, some e)
  | (s2, Except.ok _) =>
    match reverse_breakpoint s2 ret_addr p.2 with
    | PResult.panic => (s2, some ())
    | PResult.ok s3 => (s3, none)

-- dwarf.rs -------------------------------------------------------------------

/-- A DWARF attribute value as dwarf.rs distinguishes them: an address, an
unsigned constant, or any other form. -/
inductive AttrValue where
  | addr (n : Nat)
  | udata (n : Nat)
  | other
deriving DecidableEq

/-- The two attributes of a debugging-information entry that
get_die_addr_range reads (none models an absent attribute). -/
structure DieAttrs where
  low_pc : Option AttrValue
  high_pc : Option AttrValue
deriving DecidableEq

/-- dwarf.rs get_die_addr_range: `let Addr(low_pc) = ... .unwrap() else
unreachable` and likewise Udata for DW_AT_high_pc.  A missing attribute
(unwrap of None) or an unexpected form (the unreachable arm) panics; with
the expected forms it returns the half-open range low .. low + high, the
u64 addition modelled with the wrapping semantics of the release profile. -/
def get_die_addr_range (e : DieAttrs) : PResult (Nat × Nat) :=
  match e.low_pc with
  | some (AttrValue.addr lo) =>
    match e.high_pc with
    | some (AttrValue.udata hi) => PResult.ok (lo, (lo + hi) % 2 ^ 64)
    | _ => PResult.panic
  | _ => PResult.panic

/-- A file entry of the line-program header: its directory index and path
name (strings already resolved, as gimli's accessors return them). -/
structure FileEntry where
  directory_index : Nat
  path_name : RStr
deriving DecidableEq

/-- One row of the line table, with the fields the code reads: address,
file index, line (0 encodes a None line) and column (0 encodes LeftEdge). -/
structure LineRow where
  address : Nat
  file_index : Nat
  line : Nat
  col : Nat
deriving DecidableEq

/-- The parsed line program of a unit: the directory table, the file table
and the sequence of rows its state machine produces, in program order.
Lookups are modelled by list indexing as gimli resolves the indices. -/
structure LineProg where
  include_directories : List RStr
  file_names : List FileEntry
  rows : List LineRow

/-- A compile unit as dwarf.rs consumes it: the tag and attributes of its
root debugging-information entry, its DW_AT_comp_dir, and its line program. -/
structure DUnit where
  is_compile_unit : Bool
  root : DieAttrs
  comp_dir : Option RStr
  line_program : Option LineProg

/-- The line entry record of dwarf.rs; the path is a PathBuf, modelled by
its pushed components. -/
structure LineEntry where
  path : List RStr
  line : Nat
  col : Nat
deriving DecidableEq

/-- PathBuf::push: pushing an absolute path (leading separator) replaces
the whole path, otherwise the component is appended. -/
def path_push (p : List RStr) (s : RStr) : List RStr :=
  match s with
  | '/' :: _ => [s]
  | _ => p ++ [s]

/-- The body of get_line_entry_from_pc's loop for one row: the path starts
empty, becomes the compilation directory when the row's file lookup
succeeds, gains the directory-table entry when the directory index is not 0
and the lookup succeeds, then gains the file name; line and column are the
row's (0 for a None line or a LeftEdge column). -/
def row_entry (u : DUnit) (p : LineProg) (r : LineRow) : LineEntry :=
  let path : List RStr :=
    match p.file_names.get? r.file_index with
    | none => []
    | some f =>
      let base : List RStr :=
        match u.comp_dir with
        | some d => [d]
        | none => []
      let withDir : List RStr :=
        if f.directory_index ≠ 0 then
          match p.include_directories.get? f.directory_index with
          | some d => path_push base d
          | none => base
        else base
      path_push withDir f.path_name
  ⟨path, r.line, r.col⟩

/-- The `while next_row ... and address < pc` loop of get_line_entry_from_pc:
it walks rows in program order, remembering the entry of the row just
scanned, and stops at the first row whose address is not below pc. -/
def scan_rows (u : DUnit) (p : LineProg) (pc : Nat) :
    Option LineEntry → List LineRow → Option LineEntry
  | acc, [] => acc
  | acc, r :: rs =>
    if r.address < pc then scan_rows u p pc (some (row_entry u p r)) rs else acc

/-- dwarf.rs get_compile_unit_for_pc: the first unit whose root entry is a
compile unit and whose address range contains pc; reading the range can
panic, which propagates. -/
def get_compile_unit_for_pc : List DUnit → Nat → PResult (Option DUnit)
  | [], _ => PResult.ok none
  | u :: us, pc =>
    if u.is_compile_unit then
      match get_die_addr_range u.root with
      | PResult.panic => PResult.panic
      | PResult.ok r =>
        if r.1 ≤ pc ∧ pc < r.2 then PResult.ok (some u)
        else get_compile_unit_for_pc us pc
    else get_compile_unit_for_pc us pc

/-- dwarf.rs get_line_entry_from_pc: select the unit for pc, then run the
row scan of its line program (None when the unit has no line program). -/
def get_line_entry_from_pc (d : List DUnit) (pc : Nat) :
    PResult (Option LineEntry) :=
  match get_compile_unit_for_pc d pc with
  | PResult.panic => PResult.panic
  | PResult.ok none => PResult.ok none
  | PResult.ok (some u) =>
    match u.line_program with
    | none => PResult.ok none
    | some p => PResult.ok (scan_rows u p pc none p.rows)

/-- Amended reading of the spec sentence: the entry returned is that of the
last row of the longest all-below-pc prefix of the line program's rows. -/
def line_entry_scan_spec (d : List DUnit) (pc : Nat) :
    PResult (Option LineEntry) :=
  match get_compile_unit_for_pc d pc with
  | PResult.panic => PResult.panic
  | PResult.ok none => PResult.ok none
  | PResult.ok (some u) =>
    match u.line_program with
    | none => PResult.ok none
    | some p =>
      PResult.ok (((p.rows.takeWhile (fun r => r.address < pc)).getLast?).map
        (row_entry u p))

/-- The claim's reading of the spec sentence: the entry of the last row of
the whole table whose address is strictly below pc. -/
def line_entry_last_lt_spec (d : List DUnit) (pc : Nat) :
    PResult (Option LineEntry) :=
  match get_compile_unit_for_pc d pc with
  | PResult.panic => PResult.panic
  | PResult.ok none => PResult.ok none
  | PResult.ok (some u) =>
    match u.line_program with
    | none => PResult.ok none
    | some p =>
      PResult.ok (((p.rows.filter (fun r => r.address < pc)).getLast?).map
        (row_entry u p))

-- util.rs --------------------------------------------------------------------

/-- Outcome of util.rs parse_hex on a byte string: a panic (the slice
val[..2] on a too-short string), the BadHex or parse error, or the value. -/
inductive HexOut where
  | panic
  | err
  | ok (v : Nat)
deriving DecidableEq

/-- char::to_digit(16): decimal digits and both cases of a..f. -/
def hex_digit (c : Nat) : Option Nat :=
  if 0x30 ≤ c ∧ c ≤ 0x39 then some (c - 0x30)
  else if 0x61 ≤ c ∧ c ≤ 0x66 then some (c - 0x61 + 10)
  else if 0x41 ≤ c ∧ c ≤ 0x46 then some (c - 0x41 + 10)
  else none

/-- The accumulation loop of u64::from_str_radix with radix 16: checked
multiply then checked add, failing on a non-digit or on overflow past
2 ^ 64 - 1. -/
def accum_pos : Nat → List Nat → Option Nat
  | acc, [] => some acc
  | acc, c :: cs =>
    match hex_digit c with
    | none => none
    | some d =>
      if acc * 16 + d < 2 ^ 64 then accum_pos (acc * 16 + d) cs else none

/-- u64::from_str_radix(s, 16) on the byte string s: empty input and a lone
sign fail; a leading plus is skipped (a minus is not a sign for an unsigned
type and fails as a digit); then the checked accumulation runs. -/
def from_str_radix_u64_16 (s : List Nat) : Option Nat :=
  match s with
  | [] => none
  | [0x2B] => none
  | [0x2D] => none
  | 0x2B :: rest => accum_pos 0 rest
  | rest => accum_pos 0 rest

/-- str::is_char_boundary at byte index i of a UTF-8 string: the index is
the length, or the byte there is not a continuation byte (below 0x80 or at
least 0xC0). -/
def is_char_boundary (val : List Nat) (i : Nat) : Bool :=
  match val.get? i with
  | none => decide (i = val.length)
  | some b => decide (b < 0x80) || decide (0xC0 ≤ b)

/-- util.rs parse_hex on the raw bytes of the input string: the slice
val[..2] panics when fewer than two bytes are present, and likewise when
byte index 2 is not a char boundary (a UTF-8 continuation byte sits
there); otherwise the first two bytes are compared with "0x" and the
remainder is parsed in base 16 (errors from the comparison and the parse
are the returned Err). -/
def parse_hex (val : List Nat) : HexOut :=
  if val.length < 2 then HexOut.panic
  else if is_char_boundary val 2 = false then HexOut.panic
  else if ¬(val.take 2 = [0x30, 0x78]) then HexOut.err
  else
    match from_str_radix_u64_16 (val.drop 2) with
    | some v => HexOut.ok v
    | none => HexOut.err

-- concrete states used by witnesses and counterexamples ----------------------

/-- A memory whose byte at address 0 is 0x90 (a NOP) and 0x41 elsewhere. -/
def c4mem : Mem := fun x => if x = 0 then 0x90 else 0x41

/-- First enable of a fresh breakpoint at address 0 over c4mem. -/
def c4e1 : Mem × Breakpoint := Breakpoint.enable c4mem (Breakpoint.new 0)

/-- First disable after c4e1. -/
def c4d1 : Option (Mem × Breakpoint) := Breakpoint.disable c4e1.1 c4e1.2

/-- A memory already patched at address 0 (byte 0xCC) and 0x41 elsewhere. -/
def w4mem : Mem := fun x => if x = 0 then 0xCC else 0x41

/-- An enabled breakpoint at address 0 that saved the original byte 0x90. -/
def w4bp : Breakpoint := ⟨0, some 0x90, true⟩

/-- Memory for the enable/disable round-trip witness. -/
def w5mem : Mem := fun x => if x = 0 then 0x90 else 0x41

/-- A fresh breakpoint at address 0. -/
def w5bp : Breakpoint := Breakpoint.new 0

/-- A register bank with every register equal to 0x1001. -/
def w1regs : Regs := fun _ => 0x1001

/-- A breakpoint stop: not exited, SIGTRAP with si_code TRAP_BRKPT. -/
def w1ev : StopEvent := ⟨false, 5, 1⟩

/-- A debugger state with an empty registry, zeroed memory and registers. -/
def exSt2 : DbgState := ⟨fun _ => 0x41, fun _ => 0, fun _ => none⟩

/-- A debugger state with empty registry, rbp = 0x100, zeroed memory; the
word read at rbp + 8 is 0, so the transient return breakpoint lands at 0. -/
def exSt3 : DbgState := ⟨fun _ => 0, fun _ => 0x100, fun _ => none⟩

/-- A continue_execution that fails (ptrace cont or the wait fails). -/
def cont_fail : DbgState → DbgState × Except Unit Bool :=
  fun st => (st, Except.error ())

/-- Tracee memory armed at address 0: the byte there is 0xCC. -/
def w6mem : Mem := fun x => if x = 0 then 0xCC else 0x41

/-- A stopped state: rip (all registers) 0, an enabled breakpoint at 0 whose
saved byte is 0x90, memory armed at 0. -/
def w6st : DbgState :=
  ⟨w6mem, fun _ => 0, fun k => if k = 0 then some ⟨0, some 0x90, true⟩ else none⟩

/-- A single-step oracle that leaves memory and registers unchanged. -/
def w6oracle : Mem → Regs → Mem × Regs := fun m r => (m, r)

/-- A state like exSt7's for re-arming: memory armed at 0, registry holding
an enabled breakpoint at 0 with saved byte 0x90. -/
def exSt7 : DbgState :=
  ⟨fun x => if x = 0 then 0xCC else 0x41, fun _ => 0,
   fun k => if k = 0 then some ⟨0, some 0x90, true⟩ else none⟩

/-- A line program whose second row sits at a lower address than its first
(two line-table sequences): rows at addresses 10 then 3. -/
def cex9_prog : LineProg := ⟨[['s']], [⟨0, ['a']⟩], [⟨10, 0, 3, 1⟩, ⟨3, 0, 4, 1⟩]⟩

/-- A compile unit covering addresses 0..100 with cex9_prog as line program. -/
def cex9_unit : DUnit :=
  ⟨true, ⟨some (AttrValue.addr 0), some (AttrValue.udata 100)⟩, some ['h'], some cex9_prog⟩

/-- The one-unit debug data for the line-entry counterexample. -/
def cex9_dwarf : List DUnit := [cex9_unit]

/-- A line program whose only file entry has directory index 1 while the
directory table is empty, and one row below pc = 6. -/
def cex9b_prog : LineProg := ⟨[], [⟨1, ['a']⟩], [⟨3, 0, 4, 1⟩]⟩

/-- A compile unit covering addresses 0..100 with cex9b_prog as its line
program. -/
def cex9b_unit : DUnit :=
  ⟨true, ⟨some (AttrValue.addr 0), some (AttrValue.udata 100)⟩, some ['h'],
   some cex9b_prog⟩

/-- The one-unit debug data for the directory-omission counterexample. -/
def cex9b_dwarf : List DUnit := [cex9b_unit]

/-- A line program with addresses in increasing order: 1, 4, 9. -/
def w9_prog : LineProg :=
  ⟨[['s']], [⟨0, ['a']⟩], [⟨1, 0, 3, 1⟩, ⟨4, 0, 4, 1⟩, ⟨9, 0, 5, 1⟩]⟩

/-- A compile unit covering 0..100 with the sorted line program. -/
def w9_unit : DUnit :=
  ⟨true, ⟨some (AttrValue.addr 0), some (AttrValue.udata 100)⟩, some ['h'], some w9_prog⟩

/-- The one-unit debug data for the line-entry witness. -/
def w9_dwarf : List DUnit := [w9_unit]

/-- The bytes of the string 0x10000000000000000: 0x, then the 17 hex digits
of 2 ^ 64. -/
def cex10 : List Nat :=
  [0x30, 0x78, 0x31, 0x30, 0x30, 0x30, 0x30, 0x30, 0x30, 0x30, 0x30,
   0x30, 0x30, 0x30, 0x30, 0x30, 0x30, 0x30, 0x30]

-- helper lemmas on words and breakpoints -------------------------------------

theorem readWord_mod_256 (m : Mem) (hm : Mem.Wf m) (a : Nat) :
    readWord m a % 256 = m a := by
  have h0 := hm a
  unfold readWord
  omega

theorem writeWord_patch_low (m : Mem) (hm : Mem.Wf m) (a b : Nat) (hb : b < 256) :
    ∀ x, writeWord m a (readWord m a / 256 * 256 + b) x =
      if x = a then b else m x := by
  intro x
  have h0 := hm a
  have h1 := hm (a + 1)
  have h2 := hm (a + 2)
  have h3 := hm (a + 3)
  have h4 := hm (a + 4)
  have h5 := hm (a + 5)
  have h6 := hm (a + 6)
  have h7 := hm (a + 7)
  unfold writeWord readWord
  by_cases e0 : x = a
  · subst e0; rw [if_pos rfl, if_pos rfl]; omega
  rw [if_neg e0, if_neg e0]
  by_cases e1 : x = a + 1
  · subst e1; rw [if_pos rfl]; omega
  rw [if_neg e1]
  by_cases e2 : x = a + 2
  · subst e2; rw [if_pos rfl]; omega
  rw [if_neg e2]
  by_cases e3 : x = a + 3
  · subst e3; rw [if_pos rfl]; omega
  rw [if_neg e3]
  by_cases e4 : x = a + 4
  · subst e4; rw [if_pos rfl]; omega
  rw [if_neg e4]
  by_cases e5 : x = a + 5
  · subst e5; rw [if_pos rfl]; omega
  rw [if_neg e5]
  by_cases e6 : x = a + 6
  · subst e6; rw [if_pos rfl]; omega
  rw [if_neg e6]
  by_cases e7 : x = a + 7
  · subst e7; rw [if_pos rfl]; omega
  rw [if_neg e7]

theorem enable_mem_shape (m : Mem) (hm : Mem.Wf m) (bp : Breakpoint) :
    ∀ x, (Breakpoint.enable m bp).1 x = if x = bp.inst_addr then 0xCC else m x :=
  writeWord_patch_low m hm bp.inst_addr 0xCC (by norm_num)

theorem enable_record (m : Mem) (hm : Mem.Wf m) (bp : Breakpoint) :
    (Breakpoint.enable m bp).2 =
      { bp with inst_data := some (m bp.inst_addr), enabled := true } := by
  show ({ bp with inst_data := some (readWord m bp.inst_addr % 256),
                  enabled := true } : Breakpoint) = _
  rw [readWord_mod_256 m hm bp.inst_addr]

theorem enable_wf (m : Mem) (hm : Mem.Wf m) (bp : Breakpoint) :
    Mem.Wf (Breakpoint.enable m bp).1 := by
  intro x
  rw [enable_mem_shape m hm bp x]
  split
  · norm_num
  · exact hm x

theorem disable_eq (m : Mem) (bp : Breakpoint) (b : Nat)
    (hb : bp.inst_data = some b) :
    Breakpoint.disable m bp =
      some (writeWord m bp.inst_addr (readWord m bp.inst_addr / 256 * 256 + b),
            ⟨bp.inst_addr, none, false⟩) := by
  unfold Breakpoint.disable
  rw [hb]

theorem enable_inst_addr (m : Mem) (bp : Breakpoint) :
    (Breakpoint.enable m bp).2.inst_addr = bp.inst_addr := rfl

-- claim C5 --------------------------------------------------------------------

/-- Claim C5: for every breakpoint address and every initial memory (the
8-byte word at the address in particular), enable() followed by disable()
with no intervening tracee write restores memory byte for byte, and in
between only the byte at the address itself (the low byte of the word,
which holds 0xCC) ever differs from the initial memory. -/
theorem enable_disable_roundtrip (m : Mem) (bp : Breakpoint) (hm : Mem.Wf m) :
    ∃ m2 bp2,
      Breakpoint.disable (Breakpoint.enable m bp).1 (Breakpoint.enable m bp).2 =
        some (m2, bp2)
      ∧ (∀ x, m2 x = m x)
      ∧ (∀ x, x ≠ bp.inst_addr → (Breakpoint.enable m bp).1 x = m x)
      ∧ (Breakpoint.enable m bp).1 bp.inst_addr = 0xCC := by
  have hshape := enable_mem_shape m hm bp
  have hwf1 : Mem.Wf (Breakpoint.enable m bp).1 := enable_wf m hm bp
  have hen : (Breakpoint.enable m bp).2.inst_data =
      some (readWord m bp.inst_addr % 256) := rfl
  have hd := disable_eq (Breakpoint.enable m bp).1 (Breakpoint.enable m bp).2 _ hen
  rw [enable_inst_addr] at hd
  refine ⟨_, _, hd, ?_, ?_, ?_⟩
  · intro x
    have hb : readWord m bp.inst_addr % 256 < 256 := Nat.mod_lt _ (by norm_num)
    rw [writeWord_patch_low (Breakpoint.enable m bp).1 hwf1 bp.inst_addr
          (readWord m bp.inst_addr % 256) hb x]
    by_cases hx : x = bp.inst_addr
    · rw [if_pos hx, readWord_mod_256 m hm, hx]
    · rw [if_neg hx, hshape x, if_neg hx]
  · intro x hx
    rw [hshape x, if_neg hx]
  · rw [hshape bp.inst_addr, if_pos rfl]

/-- Witness for C5 at a concrete memory and breakpoint. -/
theorem enable_disable_roundtrip_w :
    Mem.Wf w5mem
    ∧ (∃ m2 bp2,
        Breakpoint.disable (Breakpoint.enable w5mem w5bp).1
            (Breakpoint.enable w5mem w5bp).2 = some (m2, bp2)
        ∧ (∀ x, m2 x = w5mem x)
        ∧ (∀ x, x ≠ w5bp.inst_addr → (Breakpoint.enable w5mem w5bp).1 x = w5mem x)
        ∧ (Breakpoint.enable w5mem w5bp).1 w5bp.inst_addr = 0xCC) := by
  have hm : Mem.Wf w5mem := by
    intro a
    unfold w5mem
    split <;> norm_num
  exact ⟨hm, enable_disable_roundtrip w5mem w5bp hm⟩

-- claim C4 --------------------------------------------------------------------

/-- Claim C4 counterexample: over c4mem (original byte 0x90 at address 0),
after a first enable the record saved 0x90; a second enable on the
already-enabled breakpoint changes the record, overwriting the saved byte
with the patched 0xCC; and after a first disable, a second disable panics
(None.unwrap) instead of succeeding unchanged. -/
theorem breakpoint_idem_cex :
    c4e1.2.enabled = true
    ∧ c4e1.2.inst_data = some 0x90
    ∧ (Breakpoint.enable c4e1.1 c4e1.2).2 ≠ c4e1.2
    ∧ (Breakpoint.enable c4e1.1 c4e1.2).2.inst_data = some 0xCC
    ∧ c4d1.isSome = true
    ∧ (c4d1.bind (fun p => Breakpoint.disable p.1 p.2)).isNone = true := by
  decide

/-- Claim C4 as amended: a second enable() on an already-enabled breakpoint
(so the byte at its address is the patch 0xCC) leaves tracee memory
unchanged but overwrites the record's saved byte with 0xCC; and a second
disable() on an already-disabled breakpoint (whose inst_data is None, as
enable/disable always leave it) panics on the unwrap instead of returning. -/
theorem breakpoint_idem_amended (m : Mem) (bp : Breakpoint) (hm : Mem.Wf m)
    (_hen : bp.enabled = true) (hcc : m bp.inst_addr = 0xCC) :
    (∀ x, (Breakpoint.enable m bp).1 x = m x)
    ∧ (Breakpoint.enable m bp).2 =
        { bp with inst_data := some 0xCC, enabled := true }
    ∧ (∀ bp' : Breakpoint, bp'.inst_data = none →
        Breakpoint.disable m bp' = none) := by
  refine ⟨?_, ?_, ?_⟩
  · intro x
    rw [enable_mem_shape m hm bp x]
    by_cases hx : x = bp.inst_addr
    · rw [if_pos hx, hx, hcc]
    · rw [if_neg hx]
  · rw [enable_record m hm bp, hcc]
  · intro bp' h
    unfold Breakpoint.disable
    rw [h]

/-- Witness for the amended C4 at a concrete armed state. -/
theorem breakpoint_idem_amended_w :
    Mem.Wf w4mem ∧ w4bp.enabled = true ∧ w4mem w4bp.inst_addr = 0xCC
    ∧ ((∀ x, (Breakpoint.enable w4mem w4bp).1 x = w4mem x)
      ∧ (Breakpoint.enable w4mem w4bp).2 =
          { w4bp with inst_data := some 0xCC, enabled := true }
      ∧ (∀ bp' : Breakpoint, bp'.inst_data = none →
          Breakpoint.disable w4mem bp' = none)) := by
  have hm : Mem.Wf w4mem := by
    intro a
    unfold w4mem
    split <;> norm_num
  exact ⟨hm, rfl, rfl, breakpoint_idem_amended w4mem w4bp hm rfl rfl⟩

-- claim C7 --------------------------------------------------------------------

/-- Claim C7 (code bug, evaluated at the failing input): with an enabled
breakpoint at address 0 whose saved byte is the original 0x90 and the
memory byte there already 0xCC, set_breakpoint_at(0) replaces the record
without disabling it first, and the new record's saved byte is the stale
patch 0xCC (the original byte 0x90 is lost). -/
theorem set_breakpoint_at_rearm_captures_int3 :
    exSt7.breakpoints 0 = some ⟨0, some 0x90, true⟩
    ∧ exSt7.mem 0 = 0xCC
    ∧ (set_breakpoint_at exSt7 0).breakpoints 0 = some ⟨0, some 0xCC, true⟩
    ∧ (set_breakpoint_at exSt7 0).mem 0 = 0xCC := by
  decide

-- reduction lemmas for the registry operations --------------------------------

theorem reg_insert_pos (r : Nat → Option Breakpoint) (a : Nat)
    (v : Option Breakpoint) (k : Nat) (h : k = a) : reg_insert r a v k = v :=
  if_pos h

theorem reg_insert_neg (r : Nat → Option Breakpoint) (a : Nat)
    (v : Option Breakpoint) (k : Nat) (h : ¬ k = a) : reg_insert r a v k = r k :=
  if_neg h

theorem set_breakpoint_at_breakpoints (s : DbgState) (a : Nat) :
    (set_breakpoint_at s a).breakpoints =
      reg_insert s.breakpoints a
        (some (Breakpoint.enable s.mem (Breakpoint.new a)).2) := rfl

theorem set_temp_none (s : DbgState) (a : Nat) (h : s.breakpoints a = none) :
    set_temp_breakpoint_at s a =
      (set_breakpoint_at s a, BreakpointLaterAction.delete) := by
  simp only [set_temp_breakpoint_at, h]

theorem set_temp_disabled (s : DbgState) (a : Nat) (bp : Breakpoint)
    (h : s.breakpoints a = some bp) (hbe : bp.enabled = false) :
    set_temp_breakpoint_at s a =
      ({ s with mem := (Breakpoint.enable s.mem bp).1,
                breakpoints := reg_insert s.breakpoints a
                  (some (Breakpoint.enable s.mem bp).2) },
       BreakpointLaterAction.disable) := by
  simp only [set_temp_breakpoint_at, h, hbe, Bool.false_eq_true, if_false]

theorem set_temp_enabled (s : DbgState) (a : Nat) (bp : Breakpoint)
    (h : s.breakpoints a = some bp) (hbe : bp.enabled = true) :
    set_temp_breakpoint_at s a = (s, BreakpointLaterAction.nothing) := by
  simp only [set_temp_breakpoint_at, h, hbe, if_true]

theorem reverse_delete (s : DbgState) (key : Nat) (bp : Breakpoint) (b : Nat)
    (h : s.breakpoints key = some bp) (hb : bp.inst_data = some b) :
    reverse_breakpoint s key BreakpointLaterAction.delete =
      PResult.ok { s with
        mem := writeWord s.mem bp.inst_addr
          (readWord s.mem bp.inst_addr / 256 * 256 + b),
        breakpoints := reg_insert s.breakpoints key none } := by
  simp only [reverse_breakpoint, h, disable_eq s.mem bp b hb]

theorem reverse_disable (s : DbgState) (key : Nat) (bp : Breakpoint) (b : Nat)
    (h : s.breakpoints key = some bp) (hb : bp.inst_data = some b) :
    reverse_breakpoint s key BreakpointLaterAction.disable =
      PResult.ok { s with
        mem := writeWord s.mem bp.inst_addr
          (readWord s.mem bp.inst_addr / 256 * 256 + b),
        breakpoints := reg_insert s.breakpoints key
          (some ⟨bp.inst_addr, none, false⟩) } := by
  simp only [reverse_breakpoint, h, disable_eq s.mem bp b hb]

theorem reverse_enable (s : DbgState) (key : Nat) (bp : Breakpoint)
    (h : s.breakpoints key = some bp) :
    reverse_breakpoint s key BreakpointLaterAction.enable =
      PResult.ok { s with
        mem := (Breakpoint.enable s.mem bp).1,
        breakpoints := reg_insert s.breakpoints key
          (some (Breakpoint.enable s.mem bp).2) } := by
  simp only [reverse_breakpoint, h]

theorem reverse_panic_of_none (s : DbgState) (key : Nat)
    (act : BreakpointLaterAction) (hact : act ≠ BreakpointLaterAction.nothing)
    (h : s.breakpoints key = none) :
    reverse_breakpoint s key act = PResult.panic := by
  cases act with
  | nothing => exact absurd rfl hact
  | delete => simp only [reverse_breakpoint, h]
  | disable => simp only [reverse_breakpoint, h]
  | enable => simp only [reverse_breakpoint, h]

theorem disable_none_of_no_data (m : Mem) (bp : Breakpoint)
    (h : bp.inst_data = none) : Breakpoint.disable m bp = none := by
  unfold Breakpoint.disable
  rw [h]

-- claim C2 --------------------------------------------------------------------

/-- Claim C2: set_temp_breakpoint_at(a) returns Delete when no entry exists
at a (constructing, enabling and inserting one), Disable when a disabled
entry exists (enabling it in place), and Nothing when an enabled entry
exists (changing nothing); and reverse_breakpoint(a, post_action) applied
afterwards restores the registry pointwise to its state before the call.
The round trip carries the registry invariant of every program-reachable
state: a disabled entry holds no saved byte (see the RegInv preservation
lemmas below, which show every registry operation maintains this). -/
theorem set_temp_reverse_spec (s : DbgState) (a : Nat) :
    (s.breakpoints a = none →
        (set_temp_breakpoint_at s a).2 = BreakpointLaterAction.delete
        ∧ ∃ bp', (set_temp_breakpoint_at s a).1.breakpoints a = some bp'
            ∧ bp'.enabled = true)
    ∧ (∀ bp, s.breakpoints a = some bp → bp.enabled = false →
        (set_temp_breakpoint_at s a).2 = BreakpointLaterAction.disable
        ∧ (set_temp_breakpoint_at s a).1.breakpoints a =
            some (Breakpoint.enable s.mem bp).2
        ∧ (Breakpoint.enable s.mem bp).2.enabled = true)
    ∧ (∀ bp, s.breakpoints a = some bp → bp.enabled = true →
        set_temp_breakpoint_at s a = (s, BreakpointLaterAction.nothing))
    ∧ ((∀ bp, s.breakpoints a = some bp → bp.enabled = false →
          bp.inst_data = none) →
        ∃ s', reverse_breakpoint (set_temp_breakpoint_at s a).1 a
                (set_temp_breakpoint_at s a).2 = PResult.ok s'
          ∧ ∀ k, s'.breakpoints k = s.breakpoints k) := by
  refine ⟨?_, ?_, ?_, ?_⟩
  · intro h
    rw [set_temp_none s a h]
    exact ⟨rfl, (Breakpoint.enable s.mem (Breakpoint.new a)).2,
           reg_insert_pos _ _ _ _ rfl, rfl⟩
  · intro bp h hbe
    rw [set_temp_disabled s a bp h hbe]
    exact ⟨rfl, reg_insert_pos _ _ _ _ rfl, rfl⟩
  · intro bp h hbe
    exact set_temp_enabled s a bp h hbe
  · intro hinv
    rcases hcase : s.breakpoints a with _ | bp
    · -- no prior entry: Delete undoes the insert
      rw [set_temp_none s a hcase]
      have hlook : (set_breakpoint_at s a).breakpoints a =
          some (Breakpoint.enable s.mem (Breakpoint.new a)).2 :=
        reg_insert_pos _ _ _ _ rfl
      have hb : (Breakpoint.enable s.mem (Breakpoint.new a)).2.inst_data =
          some (readWord s.mem a % 256) := rfl
      refine ⟨_, reverse_delete (set_breakpoint_at s a) a _ _ hlook hb, ?_⟩
      intro k
      by_cases hk : k = a
      · show reg_insert (set_breakpoint_at s a).breakpoints a none k =
          s.breakpoints k
        rw [reg_insert_pos _ _ _ _ hk, hk, hcase]
      · show reg_insert (set_breakpoint_at s a).breakpoints a none k =
          s.breakpoints k
        rw [reg_insert_neg _ _ _ _ hk, set_breakpoint_at_breakpoints,
            reg_insert_neg _ _ _ _ hk]
    · cases hbe : bp.enabled
      · -- disabled prior entry: Disable restores the record in place
        have hid : bp.inst_data = none := hinv bp hcase hbe
        rw [set_temp_disabled s a bp hcase hbe]
        have hlook : reg_insert s.breakpoints a
            (some (Breakpoint.enable s.mem bp).2) a =
            some (Breakpoint.enable s.mem bp).2 := reg_insert_pos _ _ _ _ rfl
        have hb : (Breakpoint.enable s.mem bp).2.inst_data =
            some (readWord s.mem bp.inst_addr % 256) := rfl
        refine ⟨_, reverse_disable _ a _ _ hlook hb, ?_⟩
        intro k
        by_cases hk : k = a
        · show reg_insert (reg_insert s.breakpoints a
              (some (Breakpoint.enable s.mem bp).2)) a
              (some ⟨(Breakpoint.enable s.mem bp).2.inst_addr, none, false⟩) k =
            s.breakpoints k
          rw [reg_insert_pos _ _ _ _ hk, hk, hcase, enable_inst_addr]
          obtain ⟨ad, idata, en⟩ := bp
          simp only at hid hbe
          rw [hid, hbe]
        · show reg_insert (reg_insert s.breakpoints a
              (some (Breakpoint.enable s.mem bp).2)) a
              (some ⟨(Breakpoint.enable s.mem bp).2.inst_addr, none, false⟩) k =
            s.breakpoints k
          rw [reg_insert_neg _ _ _ _ hk, reg_insert_neg _ _ _ _ hk]
      · -- enabled prior entry: Nothing changes nothing
        rw [set_temp_enabled s a bp hcase hbe]
        exact ⟨s, rfl, fun k => rfl⟩

/-- Witness for C2 at the empty registry: the Delete round trip is the
identity on the registry. -/
theorem set_temp_reverse_spec_w :
    ∃ s', reverse_breakpoint (set_temp_breakpoint_at exSt2 0).1 0
            (set_temp_breakpoint_at exSt2 0).2 = PResult.ok s'
      ∧ ∀ k, s'.breakpoints k = exSt2.breakpoints k :=
  (set_temp_reverse_spec exSt2 0).2.2.2 (fun bp h => by
    simp only [exSt2] at h
    cases h)

-- the registry invariant: an entry holds a saved byte exactly when it is
-- enabled.  Every registry-mutating operation preserves it, so it holds of
-- every program-reachable registry state; the hypotheses of the C2 and C6
-- theorems quantify over exactly these states.

/-- Registry invariant: every entry holds a saved byte iff it is enabled. -/
def RegInv (s : DbgState) : Prop :=
  ∀ k bp, s.breakpoints k = some bp → bp.inst_data.isSome = bp.enabled

theorem regInv_set_breakpoint_at (s : DbgState) (a : Nat) (h : RegInv s) :
    RegInv (set_breakpoint_at s a) := by
  intro k bp hk
  have hk' : reg_insert s.breakpoints a
      (some (Breakpoint.enable s.mem (Breakpoint.new a)).2) k = some bp := hk
  by_cases hka : k = a
  · rw [reg_insert_pos _ _ _ _ hka] at hk'
    cases hk'
    rfl
  · rw [reg_insert_neg _ _ _ _ hka] at hk'
    exact h k bp hk'

theorem regInv_set_temp (s : DbgState) (a : Nat) (h : RegInv s) :
    RegInv (set_temp_breakpoint_at s a).1 := by
  rcases hcase : s.breakpoints a with _ | bp0
  · rw [set_temp_none s a hcase]
    exact regInv_set_breakpoint_at s a h
  · cases hbe : bp0.enabled
    · rw [set_temp_disabled s a bp0 hcase hbe]
      intro k bp hk
      have hk' : reg_insert s.breakpoints a
          (some (Breakpoint.enable s.mem bp0).2) k = some bp := hk
      by_cases hka : k = a
      · rw [reg_insert_pos _ _ _ _ hka] at hk'
        cases hk'
        rfl
      · rw [reg_insert_neg _ _ _ _ hka] at hk'
        exact h k bp hk'
    · rw [set_temp_enabled s a bp0 hcase hbe]
      exact h

theorem regInv_reverse (s : DbgState) (key : Nat) (act : BreakpointLaterAction)
    (s' : DbgState) (h : RegInv s)
    (hr : reverse_breakpoint s key act = PResult.ok s') : RegInv s' := by
  cases act with
  | nothing =>
    simp only [reverse_breakpoint, PResult.ok.injEq] at hr
    rw [← hr]
    exact h
  | delete =>
    rcases hcase : s.breakpoints key with _ | bp0
    · rw [reverse_panic_of_none s key _ (by simp) hcase] at hr
      cases hr
    · rcases hdata : bp0.inst_data with _ | b
      · rw [show reverse_breakpoint s key BreakpointLaterAction.delete =
            PResult.panic from by
          simp only [reverse_breakpoint, hcase,
            disable_none_of_no_data s.mem bp0 hdata]] at hr
        cases hr
      · rw [reverse_delete s key bp0 b hcase hdata, PResult.ok.injEq] at hr
        subst hr
        intro k bp hk
        have hk' : reg_insert s.breakpoints key none k = some bp := hk
        by_cases hka : k = key
        · rw [reg_insert_pos _ _ _ _ hka] at hk'
          cases hk'
        · rw [reg_insert_neg _ _ _ _ hka] at hk'
          exact h k bp hk'
  | disable =>
    rcases hcase : s.breakpoints key with _ | bp0
    · rw [reverse_panic_of_none s key _ (by simp) hcase] at hr
      cases hr
    · rcases hdata : bp0.inst_data with _ | b
      · rw [show reverse_breakpoint s key BreakpointLaterAction.disable =
            PResult.panic from by
          simp only [reverse_breakpoint, hcase,
            disable_none_of_no_data s.mem bp0 hdata]] at hr
        cases hr
      · rw [reverse_disable s key bp0 b hcase hdata, PResult.ok.injEq] at hr
        subst hr
        intro k bp hk
        have hk' : reg_insert s.breakpoints key
            (some ⟨bp0.inst_addr, none, false⟩) k = some bp := hk
        by_cases hka : k = key
        · rw [reg_insert_pos _ _ _ _ hka] at hk'
          cases hk'
          rfl
        · rw [reg_insert_neg _ _ _ _ hka] at hk'
          exact h k bp hk'
  | enable =>
    rcases hcase : s.breakpoints key with _ | bp0
    · rw [reverse_panic_of_none s key _ (by simp) hcase] at hr
      cases hr
    · rw [reverse_enable s key bp0 hcase, PResult.ok.injEq] at hr
      subst hr
      intro k bp hk
      have hk' : reg_insert s.breakpoints key
          (some (Breakpoint.enable s.mem bp0).2) k = some bp := hk
      by_cases hka : k = key
      · rw [reg_insert_pos _ _ _ _ hka] at hk'
        cases hk'
        rfl
      · rw [reg_insert_neg _ _ _ _ hka] at hk'
        exact h k bp hk'

-- claim C3 --------------------------------------------------------------------

/-- Claim C3 (code bug, evaluated at the failing input): step_out sets the
transient return breakpoint (at address 0 here), then continue_execution
fails; the `?` operator propagates the error past the reversal, so the
command exits abnormally with the transient breakpoint still in the
registry (enabled, byte patched) although the pre-call registry was empty.
The same straight-line pattern, with no scoped guard, ends step_over. -/
theorem step_out_error_leaks_transient :
    (step_out cont_fail exSt3).2 = some ()
    ∧ (step_out cont_fail exSt3).1.breakpoints 0 = some ⟨0, some 0, true⟩
    ∧ exSt3.breakpoints 0 = none
    ∧ (step_out cont_fail exSt3).1.mem 0 = 0xCC := by
  decide

-- claim C6 --------------------------------------------------------------------

/-- An enabled registry entry exists at the address. -/
def enabled_at (s : DbgState) (addr : Nat) : Prop :=
  ∃ bp, s.breakpoints addr = some bp ∧ bp.enabled = true

/-- Claim C6: step_over_breakpoint returns true exactly when the registry
holds an enabled breakpoint at the current rip; in that case it disables
that breakpoint, lets the tracee execute one instruction (the oracle, which
includes waiting for the single-step trap), re-enables it in place, and the
entry is enabled at return; with no enabled breakpoint at rip it returns
false and changes neither the registry nor the tracee.  The hypothesis is
the registry invariant of program-reachable states (see the RegInv
preservation lemmas). -/
theorem step_over_breakpoint_spec (oracle : Mem → Regs → Mem × Regs)
    (s : DbgState)
    (hinv : ∀ bp, s.breakpoints (get_reg_value s.regs Register.rip) = some bp →
      bp.inst_data.isSome = bp.enabled) :
    (¬ enabled_at s (get_reg_value s.regs Register.rip) →
        step_over_breakpoint oracle s = PResult.ok (s, false))
    ∧ (∀ bp, s.breakpoints (get_reg_value s.regs Register.rip) = some bp →
        bp.enabled = true →
        ∃ m1 bpD, Breakpoint.disable s.mem bp = some (m1, bpD)
          ∧ step_over_breakpoint oracle s =
              PResult.ok
                ({ mem := (Breakpoint.enable (oracle m1 s.regs).1 bpD).1,
                   regs := (oracle m1 s.regs).2,
                   breakpoints := reg_insert s.breakpoints
                     (get_reg_value s.regs Register.rip)
                     (some (Breakpoint.enable (oracle m1 s.regs).1 bpD).2) },
                 true)
          ∧ (Breakpoint.enable (oracle m1 s.regs).1 bpD).2.enabled = true)
    ∧ (∀ st b, step_over_breakpoint oracle s = PResult.ok (st, b) →
        (b = true ↔ enabled_at s (get_reg_value s.regs Register.rip))) := by
  have hfalse : ¬ enabled_at s (get_reg_value s.regs Register.rip) →
      step_over_breakpoint oracle s = PResult.ok (s, false) := by
    intro hne
    rcases hcase : s.breakpoints (get_reg_value s.regs Register.rip) with _ | bp
    · simp only [step_over_breakpoint, hcase]
    · have hbe : bp.enabled = false := by
        cases hx : bp.enabled
        · rfl
        · exact absurd ⟨bp, hcase, hx⟩ hne
      simp only [step_over_breakpoint, hcase, hbe, Bool.false_eq_true, if_false]
  have htrue : ∀ bp,
      s.breakpoints (get_reg_value s.regs Register.rip) = some bp →
      bp.enabled = true →
      ∃ m1 bpD, Breakpoint.disable s.mem bp = some (m1, bpD)
        ∧ step_over_breakpoint oracle s =
            PResult.ok
              ({ mem := (Breakpoint.enable (oracle m1 s.regs).1 bpD).1,
                 regs := (oracle m1 s.regs).2,
                 breakpoints := reg_insert s.breakpoints
                   (get_reg_value s.regs Register.rip)
                   (some (Breakpoint.enable (oracle m1 s.regs).1 bpD).2) },
               true)
        ∧ (Breakpoint.enable (oracle m1 s.regs).1 bpD).2.enabled = true := by
    intro bp hcase hbe
    have hsome : bp.inst_data.isSome = true := by rw [hinv bp hcase, hbe]
    obtain ⟨b, hb⟩ := Option.isSome_iff_exists.mp hsome
    refine ⟨_, _, disable_eq s.mem bp b hb, ?_, rfl⟩
    simp only [step_over_breakpoint, hcase, hbe, if_true,
      disable_eq s.mem bp b hb]
  refine ⟨hfalse, htrue, ?_⟩
  intro st b hr
  by_cases hea : enabled_at s (get_reg_value s.regs Register.rip)
  · obtain ⟨bp, hcase, hbe⟩ := hea
    obtain ⟨m1, bpD, _, hres, _⟩ := htrue bp hcase hbe
    have hpair := hr.symm.trans hres
    simp only [PResult.ok.injEq, Prod.mk.injEq] at hpair
    rw [hpair.2]
    exact iff_of_true rfl ⟨bp, hcase, hbe⟩
  · have hpair := hr.symm.trans (hfalse hea)
    simp only [PResult.ok.injEq, Prod.mk.injEq] at hpair
    rw [hpair.2]
    exact iff_of_false (by simp) hea

/-- Witness for C6 at a concrete armed stop: rip = 0, an enabled breakpoint
with saved byte 0x90 at 0, and an identity single-step oracle. -/
theorem step_over_breakpoint_spec_w :
    ∃ m1 bpD,
      Breakpoint.disable w6st.mem (⟨0, some 0x90, true⟩ : Breakpoint) =
        some (m1, bpD)
      ∧ step_over_breakpoint w6oracle w6st =
          PResult.ok
            ({ mem := (Breakpoint.enable (w6oracle m1 w6st.regs).1 bpD).1,
               regs := (w6oracle m1 w6st.regs).2,
               breakpoints := reg_insert w6st.breakpoints
                 (get_reg_value w6st.regs Register.rip)
                 (some (Breakpoint.enable (w6oracle m1 w6st.regs).1 bpD).2) },
             true)
      ∧ (Breakpoint.enable (w6oracle m1 w6st.regs).1 bpD).2.enabled = true :=
  (step_over_breakpoint_spec w6oracle w6st (fun bp h => by
    have h' : some (⟨0, some 0x90, true⟩ : Breakpoint) = some bp := h
    cases h'
    rfl)).2.1 ⟨0, some 0x90, true⟩ rfl rfl

-- claim C1 --------------------------------------------------------------------

theorem handle_sigtrap_hit (regs : Regs) (code : Int)
    (hcode : code = 1 ∨ code = 0x80)
    (h1 : 1 ≤ get_reg_value regs Register.rip)
    (h2 : get_reg_value regs Register.rip < 2 ^ 64) :
    handle_sigtrap regs code =
      (set_reg_value regs Register.rip (get_reg_value regs Register.rip - 1),
       [(Register.rip, get_reg_value regs Register.rip - 1)]) := by
  have harith : (get_reg_value regs Register.rip + (2 ^ 64 - 1)) % 2 ^ 64 =
      get_reg_value regs Register.rip - 1 := by omega
  unfold handle_sigtrap
  rw [if_pos (Or.symm hcode), harith]

theorem handle_sigtrap_other (regs : Regs) (code : Int)
    (hcode : ¬(code = 0x80 ∨ code = 1)) :
    handle_sigtrap regs code = (regs, []) := by
  unfold handle_sigtrap
  rw [if_neg hcode]

/-- Claim C1: wait_for_signal returns true iff the wait status reports that
the tracee exited; on a SIGTRAP stop with si_code TRAP_BRKPT (1) or
SI_KERNEL (0x80) the saved rip is decremented by exactly one and written
back exactly once (one entry in the write trace); on SIGTRAP with
TRAP_TRACE (2) or any other code, on SIGSEGV, and on every other valid
signal no register is modified and false is returned. -/
theorem wait_for_signal_spec (regs : Regs) (ev : StopEvent) :
    ((∃ r, wait_for_signal regs ev = Except.ok r ∧ r.exited = true) ↔
      ev.exited = true)
    ∧ (ev.exited = false → ev.si_signo = 5 →
        (ev.si_code = 1 ∨ ev.si_code = 0x80) →
        1 ≤ get_reg_value regs Register.rip →
        get_reg_value regs Register.rip < 2 ^ 64 →
        wait_for_signal regs ev =
          Except.ok ⟨set_reg_value regs Register.rip
              (get_reg_value regs Register.rip - 1),
            [(Register.rip, get_reg_value regs Register.rip - 1)], false⟩)
    ∧ (ev.exited = false → 1 ≤ ev.si_signo → ev.si_signo ≤ 31 →
        ¬(ev.si_signo = 5 ∧ (ev.si_code = 1 ∨ ev.si_code = 0x80)) →
        wait_for_signal regs ev = Except.ok ⟨regs, [], false⟩) := by
  refine ⟨⟨?_, ?_⟩, ?_, ?_⟩
  · rintro ⟨r, hr, hex⟩
    by_cases hevx : ev.exited = true
    · exact hevx
    · exfalso
      have hexf : ev.exited = false := by
        cases hx : ev.exited
        · rfl
        · exact absurd hx hevx
      unfold wait_for_signal at hr
      rw [hexf, if_neg Bool.false_ne_true] at hr
      split_ifs at hr <;> (try cases hr) <;> exact Bool.false_ne_true hex
  · intro hex
    refine ⟨⟨regs, [], true⟩, ?_, rfl⟩
    unfold wait_for_signal
    rw [hex, if_pos rfl]
  · intro hexf hsig hcode h1 h2
    unfold wait_for_signal
    rw [hexf, if_neg Bool.false_ne_true, hsig,
        if_pos (by norm_num : (1 : Int) ≤ 5 ∧ (5 : Int) ≤ 31), if_pos rfl,
        handle_sigtrap_hit regs ev.si_code hcode h1 h2]
  · intro hexf hlo hhi hnot
    unfold wait_for_signal
    rw [hexf, if_neg Bool.false_ne_true, if_pos ⟨hlo, hhi⟩]
    by_cases h5 : ev.si_signo = 5
    · rw [if_pos h5]
      have hcode : ¬(ev.si_code = 0x80 ∨ ev.si_code = 1) := by
        intro hc
        exact hnot ⟨h5, Or.symm hc⟩
      rw [handle_sigtrap_other regs ev.si_code hcode]
    · rw [if_neg h5]

/-- Witness for C1: a TRAP_BRKPT stop with rip 0x1001 rewinds rip to
0x1000 with exactly one register write. -/
theorem wait_for_signal_spec_w :
    wait_for_signal w1regs w1ev =
      Except.ok ⟨set_reg_value w1regs Register.rip
          (get_reg_value w1regs Register.rip - 1),
        [(Register.rip, get_reg_value w1regs Register.rip - 1)], false⟩ :=
  (wait_for_signal_spec w1regs w1ev).2.1 rfl rfl (Or.inl rfl)
    (by decide) (by decide)

-- claim C8 --------------------------------------------------------------------

/-- Claim C8 counterexample: on an entry with both attributes absent,
get_die_addr_range panics (the unwrap of None) — it does not return an
error value; the claim's MalformedDebugInfo error is never produced, the
function's non-panic outcome being only a range. -/
theorem get_die_addr_range_cex :
    get_die_addr_range ⟨none, none⟩ = PResult.panic := rfl

/-- Claim C8 as amended: with DW_AT_low_pc present as an address and
DW_AT_high_pc present as a Udata offset, the half-open range
low .. (low + high) mod 2 ^ 64 is returned (the u64 sum wraps in the
release profile); with either attribute missing or of another form the
function panics (unwrap of None or the unreachable arm) instead of
returning a MalformedDebugInfo error. -/
theorem get_die_addr_range_amended (e : DieAttrs) :
    (∀ lo hi, e.low_pc = some (AttrValue.addr lo) →
        e.high_pc = some (AttrValue.udata hi) →
        get_die_addr_range e = PResult.ok (lo, (lo + hi) % 2 ^ 64))
    ∧ (((∀ lo, e.low_pc ≠ some (AttrValue.addr lo))
        ∨ (∀ hi, e.high_pc ≠ some (AttrValue.udata hi))) →
        get_die_addr_range e = PResult.panic) := by
  constructor
  · intro lo hi hlo hhi
    unfold get_die_addr_range
    rw [hlo, hhi]
  · intro h
    rcases hlo : e.low_pc with _ | v
    · unfold get_die_addr_range
      rw [hlo]
    · cases v with
      | addr n =>
        rcases h with h | h
        · exact absurd hlo (h n)
        · rcases hhi : e.high_pc with _ | w
          · unfold get_die_addr_range
            rw [hlo, hhi]
          · cases w with
            | addr k =>
              unfold get_die_addr_range
              rw [hlo, hhi]
            | udata k => exact absurd hhi (h k)
            | other =>
              unfold get_die_addr_range
              rw [hlo, hhi]
      | udata n =>
        unfold get_die_addr_range
        rw [hlo]
      | other =>
        unfold get_die_addr_range
        rw [hlo]

/-- Witness for the amended C8 on well-formed attributes. -/
theorem get_die_addr_range_amended_w :
    get_die_addr_range ⟨some (AttrValue.addr 2), some (AttrValue.udata 3)⟩ =
      PResult.ok (2, 5) :=
  (get_die_addr_range_amended
    ⟨some (AttrValue.addr 2), some (AttrValue.udata 3)⟩).1 2 3 rfl rfl

-- claim C10 -------------------------------------------------------------------

theorem accum_pos_lt : ∀ (s : List Nat) (acc : Nat), acc < 2 ^ 64 →
    ∀ v, accum_pos acc s = some v → v < 2 ^ 64 := by
  intro s
  induction s with
  | nil =>
    intro acc hacc v hv
    simp only [accum_pos] at hv
    cases hv
    exact hacc
  | cons c cs ih =>
    intro acc hacc v hv
    simp only [accum_pos] at hv
    rcases hd : hex_digit c with _ | d
    · rw [hd] at hv
      cases hv
    · rw [hd] at hv
      have hv2 : (if acc * 16 + d < 2 ^ 64 then accum_pos (acc * 16 + d) cs
          else none) = some v := hv
      by_cases hlt : acc * 16 + d < 2 ^ 64
      · rw [if_pos hlt] at hv2
        exact ih (acc * 16 + d) hlt v hv2
      · rw [if_neg hlt] at hv2
        cases hv2

theorem from_str_radix_lt (s : List Nat) (v : Nat)
    (h : from_str_radix_u64_16 s = some v) : v < 2 ^ 64 := by
  unfold from_str_radix_u64_16 at h
  split at h
  · cases h
  · cases h
  · cases h
  · exact accum_pos_lt _ 0 (by norm_num) v h
  · exact accum_pos_lt _ 0 (by norm_num) v h

theorem head_of_drop : ∀ (n : Nat) (l : List Nat), (l.drop n).head? = l.get? n := by
  intro n
  induction n with
  | zero =>
    intro l
    cases l <;> rfl
  | succ k ih =>
    intro l
    cases l with
    | nil => rfl
    | cons c cs => exact ih cs

theorem hex_digit_none_of_cont (b : Nat) (h1 : 0x80 ≤ b) (h2 : b < 0xC0) :
    hex_digit b = none := by
  unfold hex_digit
  rw [if_neg (by omega), if_neg (by omega), if_neg (by omega)]

theorem from_str_cons_cont (b : Nat) (rest : List Nat) (h1 : 0x80 ≤ b)
    (h2 : b < 0xC0) : from_str_radix_u64_16 (b :: rest) = none := by
  have hacc : accum_pos 0 (b :: rest) = none := by
    simp only [accum_pos, hex_digit_none_of_cont b h1 h2]
  unfold from_str_radix_u64_16
  split <;>
    first
      | rfl
      | exact hacc
      | (rename_i heq
         injection heq with hb hrest
         omega)

/-- Claim C10 counterexample, refuting both universally quantified clauses
at explicit inputs.  Overflow: the 19-byte string 0x10000000000000000 has
the 0x prefix and consists of valid hex digits only, yet parse_hex returns
the error (u64 overflow in from_str_radix), not Ok of a parsed value.
Totality: the three-byte UTF-8 encoding of the euro sign has byte length
at least 2, yet parse_hex panics (byte index 2 is a continuation byte, so
the slice val[..2] is off a char boundary) instead of returning Ok or an
error. -/
theorem parse_hex_overflow_cex :
    parse_hex cex10 = HexOut.err
    ∧ cex10.take 2 = [0x30, 0x78]
    ∧ 2 ≤ cex10.length
    ∧ (cex10.drop 2).all (fun c => (hex_digit c).isSome) = true
    ∧ parse_hex [0xE2, 0x82, 0xAC] = HexOut.panic
    ∧ 2 ≤ ([0xE2, 0x82, 0xAC] : List Nat).length := by
  decide

/-- Claim C10 as amended: parse_hex panics exactly when the byte string is
shorter than two bytes or its byte index 2 is not a UTF-8 char boundary
(both panics of the val[..2] slice); otherwise it returns Ok v exactly
when the string starts with 0x and the remainder parses under
u64::from_str_radix base 16 (nonempty, an optional leading plus, hex
digits, checked accumulation below 2 ^ 64), and an error otherwise; every
parsed value fits in a u64. -/
theorem parse_hex_amended (val : List Nat) :
    (parse_hex val = HexOut.panic ↔
      (val.length < 2 ∨ is_char_boundary val 2 = false))
    ∧ (2 ≤ val.length → is_char_boundary val 2 = true →
        val.take 2 ≠ [0x30, 0x78] → parse_hex val = HexOut.err)
    ∧ (∀ v, parse_hex val = HexOut.ok v ↔
        (val.take 2 = [0x30, 0x78]
          ∧ from_str_radix_u64_16 (val.drop 2) = some v))
    ∧ (∀ v, parse_hex val = HexOut.ok v → v < 2 ^ 64) := by
  by_cases hlen : val.length < 2
  · have hp : parse_hex val = HexOut.panic := by
      unfold parse_hex
      rw [if_pos hlen]
    refine ⟨⟨fun _ => Or.inl hlen, fun _ => hp⟩,
           fun h2 _ _ => absurd hlen (by omega), ?_, ?_⟩
    · intro v
      constructor
      · intro hok
        rw [hp] at hok
        cases hok
      · rintro ⟨htake, _⟩
        exfalso
        have hl := congrArg List.length htake
        simp only [List.length_take, List.length_cons, List.length_nil] at hl
        omega
    · intro v hok
      rw [hp] at hok
      cases hok
  · by_cases hcb : is_char_boundary val 2 = false
    · have hp : parse_hex val = HexOut.panic := by
        unfold parse_hex
        rw [if_neg hlen, if_pos hcb]
      have hbyte : ∃ b, val.get? 2 = some b ∧ 0x80 ≤ b ∧ b < 0xC0 := by
        rcases hg : val.get? 2 with _ | b
        · exfalso
          unfold is_char_boundary at hcb
          rw [hg] at hcb
          have hne : ¬(2 = val.length) := of_decide_eq_false hcb
          have hle : val.length ≤ 2 := List.get?_eq_none.mp hg
          omega
        · have hcb2 : ¬ b < 0x80 ∧ ¬ 0xC0 ≤ b := by
            unfold is_char_boundary at hcb
            rw [hg] at hcb
            simpa [Bool.or_eq_false_iff, decide_eq_false_iff_not] using hcb
          exact ⟨b, rfl, by omega, by omega⟩
      obtain ⟨b, hg, hb1, hb2⟩ := hbyte
      have hfs : from_str_radix_u64_16 (val.drop 2) = none := by
        have hh : (val.drop 2).head? = val.get? 2 := head_of_drop 2 val
        rw [hg] at hh
        rcases hdrop : val.drop 2 with _ | ⟨c, cs⟩
        · rw [hdrop] at hh
          cases hh
        · rw [hdrop] at hh
          have hh2 : some c = some b := hh
          injection hh2 with hc
          rw [hc]
          exact from_str_cons_cont b cs hb1 hb2
      refine ⟨⟨fun _ => Or.inr hcb, fun _ => hp⟩, ?_, ?_, ?_⟩
      · intro _ htrue _
        rw [hcb] at htrue
        cases htrue
      · intro v
        constructor
        · intro hok
          rw [hp] at hok
          cases hok
        · rintro ⟨_, hsome⟩
          rw [hfs] at hsome
          cases hsome
      · intro v hok
        rw [hp] at hok
        cases hok
    · have hstep : parse_hex val =
          (if ¬(val.take 2 = [0x30, 0x78]) then HexOut.err
           else match from_str_radix_u64_16 (val.drop 2) with
             | some v => HexOut.ok v
             | none => HexOut.err) := by
        unfold parse_hex
        rw [if_neg hlen, if_neg hcb]
      by_cases hpre : val.take 2 = [0x30, 0x78]
      · have hstep2 : parse_hex val =
            (match from_str_radix_u64_16 (val.drop 2) with
              | some v => HexOut.ok v
              | none => HexOut.err) := by
          rw [hstep, if_neg (not_not_intro hpre)]
        rcases hfs : from_str_radix_u64_16 (val.drop 2) with _ | v0
        · have herr : parse_hex val = HexOut.err := by
            rw [hstep2, hfs]
          refine ⟨⟨?_, ?_⟩, fun _ _ hne => absurd hpre hne, ?_, ?_⟩
          · intro h
            rw [herr] at h
            cases h
          · rintro (h | h)
            · exact absurd h hlen
            · exact absurd h hcb
          · intro v
            constructor
            · intro hok
              rw [herr] at hok
              cases hok
            · rintro ⟨_, hsome⟩
              cases hsome
          · intro v hok
            rw [herr] at hok
            cases hok
        · have hok2 : parse_hex val = HexOut.ok v0 := by
            rw [hstep2, hfs]
          refine ⟨⟨?_, ?_⟩, fun _ _ hne => absurd hpre hne, ?_, ?_⟩
          · intro h
            rw [hok2] at h
            cases h
          · rintro (h | h)
            · exact absurd h hlen
            · exact absurd h hcb
          · intro v
            constructor
            · intro hok
              rw [hok2] at hok
              injection hok with hv
              rw [← hv]
              exact ⟨hpre, rfl⟩
            · rintro ⟨_, hsome⟩
              injection hsome with hv
              rw [← hv]
              exact hok2
          · intro v hok
            rw [hok2] at hok
            injection hok with hv
            rw [← hv]
            exact from_str_radix_lt _ v0 hfs
      · have herr : parse_hex val = HexOut.err := by
          rw [hstep, if_pos hpre]
        refine ⟨⟨?_, ?_⟩, fun _ _ _ => herr, ?_, ?_⟩
        · intro h
          rw [herr] at h
          cases h
        · rintro (h | h)
          · exact absurd h hlen
          · exact absurd h hcb
        · intro v
          constructor
          · intro hok
            rw [herr] at hok
            cases hok
          · rintro ⟨htake, _⟩
            exact absurd htake hpre
        · intro v hok
          rw [herr] at hok
          cases hok

/-- Witness for the amended C10: the four-byte string 0x2a parses to 42. -/
theorem parse_hex_amended_w :
    parse_hex [0x30, 0x78, 0x32, 0x61] = HexOut.ok 42 :=
  ((parse_hex_amended [0x30, 0x78, 0x32, 0x61]).2.2.1 42).mpr (by decide)

-- claim C9 --------------------------------------------------------------------

theorem scan_rows_eq_foldl (u : DUnit) (p : LineProg) (pc : Nat) :
    ∀ (rows : List LineRow) (acc : Option LineEntry),
      scan_rows u p pc acc rows =
        (rows.takeWhile (fun r => r.address < pc)).foldl
          (fun _ r => some (row_entry u p r)) acc := by
  intro rows
  induction rows with
  | nil => intro acc; rfl
  | cons r rs ih =>
    intro acc
    by_cases h : r.address < pc
    · simp only [scan_rows, if_pos h]
      rw [List.takeWhile_cons, if_pos (by simpa using h), List.foldl_cons]
      exact ih (some (row_entry u p r))
    · simp only [scan_rows, if_neg h]
      rw [List.takeWhile_cons, if_neg (by simpa using h)]
      rfl

theorem foldl_entry_getLast (f : LineRow → LineEntry) :
    ∀ (l : List LineRow) (acc : Option LineEntry),
      l.foldl (fun _ r => some (f r)) acc =
        (l.getLast?).elim acc (fun x => some (f x)) := by
  intro l
  induction l with
  | nil => intro acc; rfl
  | cons a t ih =>
    intro acc
    rw [List.foldl_cons, ih (some (f a))]
    cases t with
    | nil => rfl
    | cons b t' =>
      rw [List.getLast?_cons_cons]
      rcases ht : (b :: t').getLast? with _ | x
      · exact absurd ht (by simp)
      · rfl

theorem takeWhile_eq_filter_sorted (pc : Nat) :
    ∀ (l : List LineRow),
      l.Pairwise (fun a b => a.address ≤ b.address) →
      l.takeWhile (fun r => r.address < pc) =
        l.filter (fun r => r.address < pc) := by
  intro l
  induction l with
  | nil => intro _; rfl
  | cons a t ih =>
    intro hp
    rw [List.pairwise_cons] at hp
    by_cases h : a.address < pc
    · rw [List.takeWhile_cons, List.filter_cons, if_pos (by simpa using h),
          if_pos (by simpa using h), ih hp.2]
    · rw [List.takeWhile_cons, List.filter_cons, if_neg (by simpa using h),
          if_neg (by simpa using h)]
      symm
      rw [List.filter_eq_nil_iff]
      intro b hb
      have hab := hp.1 b hb
      simp only [decide_eq_true_eq]
      omega

theorem scan_spec_core (u : DUnit) (p : LineProg) (pc : Nat) :
    scan_rows u p pc none p.rows =
      ((p.rows.takeWhile (fun r => r.address < pc)).getLast?).map
        (row_entry u p) := by
  rw [scan_rows_eq_foldl u p pc p.rows none,
      foldl_entry_getLast (row_entry u p) _ none]
  cases (p.rows.takeWhile (fun r => r.address < pc)).getLast? <;> rfl

/-- Claim C9 counterexample, refuting both clauses of the claim at explicit
inputs.  Row order: a line program whose rows sit at addresses 10 then 3
(two line-table sequences), with pc = 6 inside the unit: a row with address
strictly below 6 exists (the last such row is the one at address 3), yet
the code returns None because the scan stops at the first row at or past
the pc, so the claim's last-row-below-pc reading disagrees with the code's
value.  Path assembly: a file entry whose directory index is 1 (nonzero)
while the directory table has no entry 1: the code omits the directory
component (the path is compilation directory then filename), refuting
"the directory component is omitted exactly when the directory index
is 0". -/
theorem line_entry_scan_cex :
    get_line_entry_from_pc cex9_dwarf 6 = PResult.ok none
    ∧ ((cex9_prog.rows.filter (fun r => r.address < 6)).getLast?).isSome = true
    ∧ line_entry_last_lt_spec cex9_dwarf 6 ≠ get_line_entry_from_pc cex9_dwarf 6
    ∧ get_line_entry_from_pc cex9b_dwarf 6 =
        PResult.ok (some ⟨[['h'], ['a']], 4, 1⟩)
    ∧ (cex9b_prog.file_names.get? 0).map (fun f => f.directory_index) = some 1
    ∧ cex9b_prog.include_directories.get? 1 = none := by
  decide

/-- Claim C9 as amended: get_line_entry_from_pc returns the entry of the
last row in the maximal all-below-pc prefix of the unit's line-program rows
(None when the very first row is already at or past the pc, when the unit
has no line program, or when no unit contains the pc), which coincides with
the entry of the last row of the whole table with address strictly below pc
whenever the row addresses are non-decreasing; the path is assembled from
the compilation directory, the directory-table entry and the file name,
the directory component being included exactly when the file's directory
index is nonzero and present in the directory table (see row_entry). -/
theorem line_entry_scan_amended (d : List DUnit) (pc : Nat) :
    get_line_entry_from_pc d pc = line_entry_scan_spec d pc
    ∧ ((∀ u p, get_compile_unit_for_pc d pc = PResult.ok (some u) →
          u.line_program = some p →
          p.rows.Pairwise (fun a b => a.address ≤ b.address)) →
        get_line_entry_from_pc d pc = line_entry_last_lt_spec d pc) := by
  constructor
  · rcases hcu : get_compile_unit_for_pc d pc with ou | _
    · rcases ou with _ | u
      · unfold get_line_entry_from_pc line_entry_scan_spec
        rw [hcu]
      · have h1 : get_line_entry_from_pc d pc =
            (match u.line_program with
              | none => PResult.ok none
              | some p => PResult.ok (scan_rows u p pc none p.rows)) := by
          unfold get_line_entry_from_pc
          rw [hcu]
        have h2 : line_entry_scan_spec d pc =
            (match u.line_program with
              | none => PResult.ok none
              | some p => PResult.ok (((p.rows.takeWhile
                  (fun r => r.address < pc)).getLast?).map (row_entry u p))) := by
          unfold line_entry_scan_spec
          rw [hcu]
        rw [h1, h2]
        rcases hlp : u.line_program with _ | p
        · rfl
        · show PResult.ok (scan_rows u p pc none p.rows) =
            PResult.ok (((p.rows.takeWhile
              (fun r => r.address < pc)).getLast?).map (row_entry u p))
          rw [scan_spec_core]
    · unfold get_line_entry_from_pc line_entry_scan_spec
      rw [hcu]
  · intro hsort
    rcases hcu : get_compile_unit_for_pc d pc with ou | _
    · rcases ou with _ | u
      · unfold get_line_entry_from_pc line_entry_last_lt_spec
        rw [hcu]
      · have h1 : get_line_entry_from_pc d pc =
            (match u.line_program with
              | none => PResult.ok none
              | some p => PResult.ok (scan_rows u p pc none p.rows)) := by
          unfold get_line_entry_from_pc
          rw [hcu]
        have h2 : line_entry_last_lt_spec d pc =
            (match u.line_program with
              | none => PResult.ok none
              | some p => PResult.ok (((p.rows.filter
                  (fun r => r.address < pc)).getLast?).map (row_entry u p))) := by
          unfold line_entry_last_lt_spec
          rw [hcu]
        rw [h1, h2]
        rcases hlp : u.line_program with _ | p
        · rfl
        · show PResult.ok (scan_rows u p pc none p.rows) =
            PResult.ok (((p.rows.filter
              (fun r => r.address < pc)).getLast?).map (row_entry u p))
          rw [scan_spec_core,
              takeWhile_eq_filter_sorted pc p.rows (hsort u p hcu hlp)]
    · unfold get_line_entry_from_pc line_entry_last_lt_spec
      rw [hcu]

/-- Witness for the amended C9 on a sorted three-row line program. -/
theorem line_entry_scan_amended_w :
    get_line_entry_from_pc w9_dwarf 6 = line_entry_last_lt_spec w9_dwarf 6 :=
  (line_entry_scan_amended w9_dwarf 6).2 (fun u p hu hp => by
    have hu2 : PResult.ok (some w9_unit) = PResult.ok (some u) := hu
    injection hu2 with hu3
    injection hu3 with hu4
    cases hu4
    have hp2 : some w9_prog = some p := hp
    injection hp2 with hp3
    cases hp3
    decide)

end Dbg
